import Mathlib

/-!
Verification of the bhumi simulation-and-render core.

The Rust source is shallowly embedded:
* `u8`/`u32` values are `ℕ` (all operations on them in the embedded code are
  bounds checks, additions that cannot overflow on the checked paths, and
  saturating subtraction, which is `ℕ` subtraction);
* `f32` values are idealised as `ℝ`;
* `i32` intermediates of Bresenham's algorithm are `ℤ`, with the `as`
  casts between `u32` and `i32` modelled by explicit wrap-around functions;
* structs are structures, `&mut self` methods are state-passing functions.
-/

set_option maxHeartbeats 1000000

set_option maxRecDepth 4000

namespace Bhumi

/-- RGBA colour, one `ℕ` per `u8` channel (`[u8; 4]` in the source). -/
structure Color where
  r : ℕ
  g : ℕ
  b : ℕ
  a : ℕ
  deriving DecidableEq, Repr

/-- `PixelBuffer` from `pixel_buffer.rs`: width, height and a row-major
pixel array. -/
structure PixelBuffer where
  width : ℕ
  height : ℕ
  pixels : List Color
  deriving DecidableEq, Repr

namespace PixelBuffer

/-- `PixelBuffer::new`: standard 320×240 buffer, black with full alpha. -/
def new : PixelBuffer :=
  { width := 320, height := 240
    pixels := List.replicate (320 * 240) ⟨0, 0, 0, 255⟩ }

/-- `PixelBuffer::clear`: overwrite every pixel with `color`
(`self.pixels.fill(color)`). -/
def clear (b : PixelBuffer) (color : Color) : PixelBuffer :=
  { b with pixels := List.replicate b.pixels.length color }

/-- `PixelBuffer::set_pixel`: bounds-checked write; returns the updated
buffer and whether the pixel was written. -/
def setPixel (b : PixelBuffer) (x y : ℕ) (color : Color) : PixelBuffer × Bool :=
  if x ≥ b.width ∨ y ≥ b.height then
    (b, false)
  else
    let index := y * b.width + x
    if index < b.pixels.length then
      ({ b with pixels := b.pixels.set index color }, true)
    else
      (b, false)

/-- `set_pixel` used purely for its buffer effect (callers that ignore the
returned `bool`). -/
def setPx (b : PixelBuffer) (x y : ℕ) (color : Color) : PixelBuffer :=
  (b.setPixel x y color).1

/-- `PixelBuffer::get_pixel`: bounds-checked read. -/
def getPixel (b : PixelBuffer) (x y : ℕ) : Option Color :=
  if x ≥ b.width ∨ y ≥ b.height then
    none
  else
    b.pixels[y * b.width + x]?

end PixelBuffer

/-- Rust `as i32` applied to a `u32` value (two's-complement wrap-around). -/
def u32toI32 (n : ℕ) : ℤ :=
  if n < 2 ^ 31 then (n : ℤ) else (n : ℤ) - 2 ^ 32

/-- Rust `as u32` applied to an `i32` value (two's-complement wrap-around). -/
def i32toU32 (z : ℤ) : ℕ :=
  (z % 2 ^ 32).toNat

namespace PixelBuffer

/-- Loop body of `PixelBuffer::draw_line` (Bresenham).  The mutable locals
`x`, `y`, `err` and the buffer are threaded explicitly; `fuel` bounds the
number of iterations purely to make the recursion structural — `draw_line`
below supplies `dx + dy + 1` units, which dominates the `max dx dy + 1`
iterations the source loop performs before hitting its exit test. -/
def drawLineLoop (c : Color) (x1i y1i dx dy sx sy : ℤ) :
    ℕ → PixelBuffer → ℤ → ℤ → ℤ → PixelBuffer
  | 0, b, _, _, _ => b
  | fuel + 1, b, x, y, err =>
    let b1 := b.setPx (i32toU32 x) (i32toU32 y) c
    if x = x1i ∧ y = y1i then
      b1
    else
      let e2 := 2 * err
      let errA := if e2 > -dy then err - dy else err
      let xA := if e2 > -dy then x + sx else x
      let errB := if e2 < dx then errA + dx else errA
      let yA := if e2 < dx then y + sy else y
      drawLineLoop c x1i y1i dx dy sx sy fuel b1 xA yA errB

/-- `PixelBuffer::draw_line`: Bresenham's algorithm from `(x0, y0)` to
`(x1, y1)` inclusive, clamping via `set_pixel`'s bounds check. -/
def drawLine (b : PixelBuffer) (x0 y0 x1 y1 : ℕ) (c : Color) : PixelBuffer :=
  let dx : ℤ := |u32toI32 x1 - u32toI32 x0|
  let dy : ℤ := |u32toI32 y1 - u32toI32 y0|
  let sx : ℤ := if x0 < x1 then 1 else -1
  let sy : ℤ := if y0 < y1 then 1 else -1
  let err : ℤ := dx - dy
  drawLineLoop c (u32toI32 x1) (u32toI32 y1) dx dy sx sy
    (dx.toNat + dy.toNat + 1) b (u32toI32 x0) (u32toI32 y0) err

/-- `PixelBuffer::draw_rect`: filled axis-aligned rectangle via nested
`set_pixel` loops. -/
def drawRect (b : PixelBuffer) (x y w h : ℕ) (c : Color) : PixelBuffer :=
  (List.range h).foldl
    (fun bRow dy =>
      (List.range w).foldl (fun bCol dx => bCol.setPx (x + dx) (y + dy) c) bRow)
    b

end PixelBuffer

/-- A 3-component `f32` vector (`Vector3<f32>` / `Point3<f32>` / glam `Vec3`),
idealised over `ℝ`. -/
@[ext]
structure Vec3 where
  x : ℝ
  y : ℝ
  z : ℝ

instance : Add Vec3 :=
  ⟨fun a b => ⟨a.x + b.x, a.y + b.y, a.z + b.z⟩⟩

instance : SMul ℝ Vec3 :=
  ⟨fun c v => ⟨c * v.x, c * v.y, c * v.z⟩⟩

namespace Vec3

/-- The zero vector (`Vector::new(0.0, 0.0, 0.0)` / `Vec3::ZERO`). -/
def zero : Vec3 := ⟨0, 0, 0⟩

/-- Squared Euclidean length. -/
def sqLength (v : Vec3) : ℝ := v.x * v.x + v.y * v.y + v.z * v.z

/-- Euclidean length (`Vec3::length`). -/
noncomputable def length (v : Vec3) : ℝ := Real.sqrt v.sqLength

end Vec3

/-- A 4×4 `f32` matrix (`Matrix4<f32>`), idealised over `ℝ`. -/
abbrev Mat4 := Matrix (Fin 4) (Fin 4) ℝ

/-- Homogeneous coordinates of a world point (`Point3::to_homogeneous`). -/
def toHomogeneous (p : Vec3) : Fin 4 → ℝ := ![p.x, p.y, p.z, 1]

/-- Rust `as u32` applied to an `f32` value: truncate toward zero and
saturate to `[0, u32::MAX]`. -/
noncomputable def f32toU32 (r : ℝ) : ℕ :=
  if r ≤ 0 then 0 else min (Int.toNat ⌊r⌋) (2 ^ 32 - 1)

/-- `world_to_screen` from `camera.rs`: transform through the
view-projection matrix, reject `w <= 0`, perspective-divide, and map NDC to
pixel coordinates with Y-flip.  The frustum test is commented out in the
source and therefore absent here. -/
noncomputable def worldToScreen (worldPos : Vec3) (viewProjection : Mat4)
    (screenWidth screenHeight : ℕ) : Option (ℝ × ℝ × ℝ) :=
  let clipSpace := viewProjection.mulVec (toHomogeneous worldPos)
  if clipSpace 3 ≤ 0 then
    none
  else
    let ndcX := clipSpace 0 / clipSpace 3
    let ndcY := clipSpace 1 / clipSpace 3
    let ndcZ := clipSpace 2 / clipSpace 3
    let screenX := (ndcX + 1) * 0.5 * (screenWidth : ℝ)
    let screenY := (1 - ndcY) * 0.5 * (screenHeight : ℝ)
    some (screenX, screenY, ndcZ)

/-- Modelled from the spec: the `CameraMode` enum declaration is missing
from the source snapshot (only its uses in `camera.rs` and `renderer.rs`
survive); the spec lists the modes first-person, third-person and free. -/
inductive CameraMode where
  | firstPerson
  | thirdPerson
  | free
  deriving DecidableEq

/-- `Camera` from `camera.rs`. -/
structure Camera where
  mode : CameraMode
  position : Vec3
  target : Vec3
  up : Vec3
  fov : ℝ
  aspect : ℝ
  near : ℝ
  far : ℝ

namespace Camera

/-- `Camera::new`: third-person mode, 60° field of view, 4:3 aspect,
near 0.1, far 100. -/
noncomputable def new : Camera :=
  { mode := CameraMode.thirdPerson
    position := ⟨0, 0, -3⟩
    target := ⟨0, 0, 0⟩
    up := ⟨0, 1, 0⟩
    fov := 60 * Real.pi / 180
    aspect := 320 / 240
    near := 0.1
    far := 100 }

/-- `Camera::update`: `position` becomes the drone position plus the fixed
offset `(-1.5, 1.0, -2.0)` and `target` becomes the drone position.  The
`mode` field is not consulted. -/
def update (c : Camera) (dronePos : Vec3) : Camera :=
  { c with position := dronePos + (⟨-1.5, 1.0, -2.0⟩ : Vec3), target := dronePos }

/-- `Camera::set_mode`. -/
def setMode (c : Camera) (mode : CameraMode) : Camera :=
  { c with mode := mode }

end Camera

/-- Quaternion of an axis-angle rotation (glam `Quat::from_axis_angle`):
real part `cos(angle/2)`, imaginary part `sin(angle/2) * axis`. -/
noncomputable def fromAxisAngle (axis : Vec3) (angle : ℝ) : Quaternion ℝ :=
  ⟨Real.cos (angle / 2), Real.sin (angle / 2) * axis.x,
    Real.sin (angle / 2) * axis.y, Real.sin (angle / 2) * axis.z⟩

/-- glam `Quat::from_scaled_axis`: identity for the zero vector, otherwise
an axis-angle rotation about the normalised vector by its length. -/
noncomputable def fromScaledAxis (v : Vec3) : Quaternion ℝ :=
  if v.length = 0 then 1 else fromAxisAngle ((v.length)⁻¹ • v) v.length

/-- glam `Quat::from_euler(EulerRot::XYZ, a, b, c)`: composition of the
axis rotations about X, Y and Z. -/
noncomputable def fromEulerXYZ (a b c : ℝ) : Quaternion ℝ :=
  fromAxisAngle ⟨1, 0, 0⟩ a * fromAxisAngle ⟨0, 1, 0⟩ b * fromAxisAngle ⟨0, 0, 1⟩ c

/-- glam `Quat::normalize`: scale to unit length. -/
noncomputable def qNormalize (q : Quaternion ℝ) : Quaternion ℝ :=
  ‖q‖⁻¹ • q

/-- `WebPhysicsWorld` state from `web_physics.rs`. -/
structure WebPhysicsWorld where
  position : Vec3
  velocity : Vec3
  rotation : Quaternion ℝ
  angular_velocity : Vec3
  linear_damping : ℝ
  angular_damping : ℝ

namespace WebPhysicsWorld

/-- `WebPhysicsWorld::new`: start 3 m in front of the cube, at rest,
identity orientation, dampings 0.9. -/
noncomputable def new : WebPhysicsWorld :=
  { position := ⟨0, 0, -3⟩
    velocity := Vec3.zero
    rotation := 1
    angular_velocity := Vec3.zero
    linear_damping := 0.9
    angular_damping := 0.9 }

/-- `WebPhysicsWorld::step`: integrate force, apply multiplicative damping,
advance position, and rotate by the scaled angular velocity (renormalising)
when the damped angular speed exceeds 0.001.  The source additionally
returns the new position, which is `getDronePosition` of the result. -/
noncomputable def step (w : WebPhysicsWorld) (dt : ℝ) (force : Vec3) : WebPhysicsWorld :=
  let acceleration := force
  let velocity1 := w.velocity + dt • acceleration
  let velocity2 := w.linear_damping • velocity1
  let angularVelocity2 := w.angular_damping • w.angular_velocity
  let position2 := w.position + dt • velocity2
  let rotation2 :=
    if angularVelocity2.length > 0.001 then
      qNormalize (fromScaledAxis (dt • angularVelocity2) * w.rotation)
    else
      w.rotation
  { position := position2, velocity := velocity2, rotation := rotation2,
    angular_velocity := angularVelocity2,
    linear_damping := w.linear_damping, angular_damping := w.angular_damping }

/-- `WebPhysicsWorld::apply_rotation_delta`: compose an Euler-angle delta
onto the orientation, renormalise, and zero the angular velocity. -/
noncomputable def applyRotationDelta (w : WebPhysicsWorld) (rotationDelta : Vec3) :
    WebPhysicsWorld :=
  let deltaQuat := fromEulerXYZ rotationDelta.x rotationDelta.y rotationDelta.z
  { w with rotation := qNormalize (deltaQuat * w.rotation), angular_velocity := Vec3.zero }

/-- `WebPhysicsWorld::get_drone_position`. -/
def getDronePosition (w : WebPhysicsWorld) : Vec3 := w.position

/-- `WebPhysicsWorld::get_drone_velocity`. -/
def getDroneVelocity (w : WebPhysicsWorld) : Vec3 := w.velocity

/-- `WebPhysicsWorld::reset_drone`: teleport to the start pose and zero all
velocities. -/
noncomputable def resetDrone (w : WebPhysicsWorld) : WebPhysicsWorld :=
  { w with position := ⟨0, 0, -3⟩, velocity := Vec3.zero,
           rotation := 1, angular_velocity := Vec3.zero }

/-- `WebPhysicsWorld::gentle_stop`: scale velocities by 0.8. -/
def gentleStop (w : WebPhysicsWorld) : WebPhysicsWorld :=
  { w with velocity := (0.8 : ℝ) • w.velocity,
           angular_velocity := (0.8 : ℝ) • w.angular_velocity }

/-- `WebPhysicsWorld::emergency_brake`: scale velocities by 0.5. -/
def emergencyBrake (w : WebPhysicsWorld) : WebPhysicsWorld :=
  { w with velocity := (0.5 : ℝ) • w.velocity,
           angular_velocity := (0.5 : ℝ) • w.angular_velocity }

end WebPhysicsWorld

/-- States of `WebPhysicsWorld` reachable through its public interface. -/
inductive WebReachable : WebPhysicsWorld → Prop where
  | new : WebReachable WebPhysicsWorld.new
  | step {w : WebPhysicsWorld} (dt : ℝ) (f : Vec3) :
      WebReachable w → WebReachable (w.step dt f)
  | applyRotationDelta {w : WebPhysicsWorld} (d : Vec3) :
      WebReachable w → WebReachable (w.applyRotationDelta d)
  | resetDrone {w : WebPhysicsWorld} : WebReachable w → WebReachable w.resetDrone
  | gentleStop {w : WebPhysicsWorld} : WebReachable w → WebReachable w.gentleStop
  | emergencyBrake {w : WebPhysicsWorld} : WebReachable w → WebReachable w.emergencyBrake

/-- The drone rigid-body state read and written by the `physics.rs` wrapper
around the external rapier engine: translation, linear and angular velocity
and orientation. -/
structure DroneBody where
  translation : Vec3
  linvel : Vec3
  angvel : Vec3
  rotation : Quaternion ℝ

/-- `PhysicsWorld` from `physics.rs` (the rapier wrapper), reduced to the
state its public interface touches: the gravity vector and the drone body. -/
structure PhysicsWorld where
  gravity : Vec3
  drone : DroneBody

namespace PhysicsWorld

/-- `PhysicsWorld::new`: zero gravity, drone at `(0, 0, -3)` with zero
velocities (dampings 0.9 are fixed in the modelled step below). -/
noncomputable def new : PhysicsWorld :=
  { gravity := Vec3.zero
    drone := { translation := ⟨0, 0, -3⟩, linvel := Vec3.zero,
               angvel := Vec3.zero, rotation := 1 } }

/-- Modelled from the spec: `PhysicsWorld::step_with_torque` is called by
`renderer.rs` but absent from the `physics.rs` snapshot (which delegates
stepping to the external rapier engine).  Per §4.2 and §9 of the spec it
clamps `dt` to at least 1/240 s, applies the one-shot force and torque,
advances by semi-implicit Euler with the 0.9 multiplicative damping set at
construction, and returns the new drone position. -/
noncomputable def stepWithTorque (pw : PhysicsWorld) (dt : ℝ) (force torque : Vec3) :
    PhysicsWorld × Vec3 :=
  let dtc := max dt (1 / 240)
  let linvel1 := (0.9 : ℝ) • (pw.drone.linvel + dtc • (force + pw.gravity))
  let angvel1 := (0.9 : ℝ) • (pw.drone.angvel + dtc • torque)
  let translation1 := pw.drone.translation + dtc • linvel1
  let rotation1 := qNormalize (fromScaledAxis (dtc • angvel1) * pw.drone.rotation)
  ({ pw with drone := { translation := translation1, linvel := linvel1,
                        angvel := angvel1, rotation := rotation1 } }, translation1)

/-- `PhysicsWorld::get_drone_position`. -/
def getDronePosition (pw : PhysicsWorld) : Vec3 := pw.drone.translation

/-- `PhysicsWorld::get_drone_velocity`. -/
def getDroneVelocity (pw : PhysicsWorld) : Vec3 := pw.drone.linvel

/-- Modelled from the spec: `get_drone_rotation` is called by `renderer.rs`
but absent from the `physics.rs` snapshot; it is the pure orientation
accessor of §4.2. -/
def getDroneRotation (pw : PhysicsWorld) : Quaternion ℝ := pw.drone.rotation

/-- `PhysicsWorld::reset_drone`: teleport to the start pose and zero the
linear and angular velocity. -/
def resetDrone (pw : PhysicsWorld) : PhysicsWorld :=
  { pw with drone := { pw.drone with translation := ⟨0, 0, -3⟩,
                                     linvel := Vec3.zero, angvel := Vec3.zero } }

/-- `PhysicsWorld::stop_drone`: zero the linear and angular velocity. -/
def stopDrone (pw : PhysicsWorld) : PhysicsWorld :=
  { pw with drone := { pw.drone with linvel := Vec3.zero, angvel := Vec3.zero } }

end PhysicsWorld

/-- Vector difference, used by the look-at construction. -/
instance : Sub Vec3 :=
  ⟨fun a b => ⟨a.x - b.x, a.y - b.y, a.z - b.z⟩⟩

namespace Vec3

/-- Dot product. -/
def dot (a b : Vec3) : ℝ := a.x * b.x + a.y * b.y + a.z * b.z

/-- Cross product. -/
def cross (a b : Vec3) : Vec3 :=
  ⟨a.y * b.z - a.z * b.y, a.z * b.x - a.x * b.z, a.x * b.y - a.y * b.x⟩

/-- Normalisation to unit length. -/
noncomputable def normalize (v : Vec3) : Vec3 := (v.length)⁻¹ • v

end Vec3

/-- Modelled from the spec: `Matrix4::look_at_rh` comes from the external
nalgebra library; this is the standard right-handed look-at view matrix the
spec's §4.3 refers to. -/
noncomputable def lookAtRh (eye target up : Vec3) : Mat4 :=
  let f := (target - eye).normalize
  let s := (f.cross up).normalize
  let u := s.cross f
  Matrix.of ![![s.x, s.y, s.z, -(s.dot eye)],
              ![u.x, u.y, u.z, -(u.dot eye)],
              ![-f.x, -f.y, -f.z, f.dot eye],
              ![0, 0, 0, 1]]

/-- Modelled from the spec: `Matrix4::new_perspective` comes from the
external nalgebra library; this is the standard right-handed perspective
projection matrix built from aspect, vertical field of view and the near
and far planes. -/
noncomputable def newPerspective (aspect fovy near far : ℝ) : Mat4 :=
  let f := (Real.tan (fovy / 2))⁻¹
  Matrix.of ![![f / aspect, 0, 0, 0],
              ![0, f, 0, 0],
              ![0, 0, (far + near) / (near - far), 2 * far * near / (near - far)],
              ![0, 0, -1, 0]]

namespace Camera

/-- `Camera::get_view_matrix`. -/
noncomputable def getViewMatrix (c : Camera) : Mat4 :=
  lookAtRh c.position c.target c.up

/-- `Camera::get_projection_matrix`. -/
noncomputable def getProjectionMatrix (c : Camera) : Mat4 :=
  newPerspective c.aspect c.fov c.near c.far

/-- `Camera::get_view_projection_matrix`. -/
noncomputable def getViewProjectionMatrix (c : Camera) : Mat4 :=
  c.getProjectionMatrix * c.getViewMatrix

/-- Modelled from the spec: the camera-update entry point invoked by
`Renderer::update` passes the drone position and rotation; the surviving
`camera.rs` snapshot consults only the position (offset and look-at), so
the rotation argument is unused. -/
def updateWithRotation (c : Camera) (dronePos : Vec3)
    (droneRotation : Quaternion ℝ) : Camera :=
  c.update dronePos

end Camera

/-- `InputEvent` as consumed by the `renderer.rs` snapshot (its declaration
module is missing from the source; the variants are those of the exhaustive
match in `Renderer::update`). -/
inductive InputEvent where
  | thrustForward
  | thrustBackward
  | thrustLeft
  | thrustRight
  | thrustUp
  | thrustDown
  | pitchUp
  | pitchDown
  | yawLeft
  | yawRight
  | rollLeft
  | rollRight
  | cameraMode (mode : CameraMode)
  | reset
  | stop
  | exit
  deriving DecidableEq

/-- `Renderer` from `renderer.rs`: physics, camera, pixel buffer and the
per-frame force/torque accumulators. -/
structure Renderer where
  physics : PhysicsWorld
  camera : Camera
  buffer : PixelBuffer
  thrust_force : Vec3
  angular_force : Vec3

namespace Renderer

/-- `Renderer::new`. -/
noncomputable def new : Renderer :=
  { physics := PhysicsWorld.new
    camera := Camera.new
    buffer := PixelBuffer.new
    thrust_force := Vec3.zero
    angular_force := Vec3.zero }

/-- One arm of the event match in `Renderer::update`: accumulate thrust or
torque, or perform the event's immediate side effect. -/
def processEvent (r : Renderer) (event : InputEvent) : Renderer :=
  match event with
  | .thrustForward => { r with thrust_force := { r.thrust_force with z := r.thrust_force.z + 0.3 } }
  | .thrustBackward => { r with thrust_force := { r.thrust_force with z := r.thrust_force.z - 0.3 } }
  | .thrustLeft => { r with thrust_force := { r.thrust_force with x := r.thrust_force.x - 0.3 } }
  | .thrustRight => { r with thrust_force := { r.thrust_force with x := r.thrust_force.x + 0.3 } }
  | .thrustUp => { r with thrust_force := { r.thrust_force with y := r.thrust_force.y + 0.5 } }
  | .thrustDown => { r with thrust_force := { r.thrust_force with y := r.thrust_force.y - 0.5 } }
  | .pitchUp => { r with angular_force := { r.angular_force with x := r.angular_force.x - 0.05 } }
  | .pitchDown => { r with angular_force := { r.angular_force with x := r.angular_force.x + 0.05 } }
  | .yawLeft => { r with angular_force := { r.angular_force with y := r.angular_force.y - 0.05 } }
  | .yawRight => { r with angular_force := { r.angular_force with y := r.angular_force.y + 0.05 } }
  | .rollLeft => { r with angular_force := { r.angular_force with z := r.angular_force.z - 0.05 } }
  | .rollRight => { r with angular_force := { r.angular_force with z := r.angular_force.z + 0.05 } }
  | .cameraMode mode => { r with camera := r.camera.setMode mode }
  | .reset => { r with physics := r.physics.resetDrone }
  | .stop => { r with physics := r.physics.stopDrone }
  | .exit => r

/-- `Renderer::update`: process the events, step the physics exactly once
with the accumulated force and torque, reset the accumulators to zero, and
update the camera from the new drone pose. -/
noncomputable def update (r : Renderer) (dt : ℝ) (inputEvents : List InputEvent) : Renderer :=
  let r1 := inputEvents.foldl processEvent r
  let stepResult := r1.physics.stepWithTorque dt r1.thrust_force r1.angular_force
  let r2 := { r1 with physics := stepResult.1,
                      thrust_force := Vec3.zero, angular_force := Vec3.zero }
  let droneRotation := r2.physics.getDroneRotation
  { r2 with camera := r2.camera.updateWithRotation stepResult.2 droneRotation }

end Renderer

/-- The per-event increment to the thrust accumulator in
`Renderer::update`'s match. -/
def thrustStep (v : Vec3) (event : InputEvent) : Vec3 :=
  match event with
  | .thrustForward => { v with z := v.z + 0.3 }
  | .thrustBackward => { v with z := v.z - 0.3 }
  | .thrustLeft => { v with x := v.x - 0.3 }
  | .thrustRight => { v with x := v.x + 0.3 }
  | .thrustUp => { v with y := v.y + 0.5 }
  | .thrustDown => { v with y := v.y - 0.5 }
  | _ => v

/-- The per-event increment to the torque accumulator in
`Renderer::update`'s match. -/
def torqueStep (v : Vec3) (event : InputEvent) : Vec3 :=
  match event with
  | .pitchUp => { v with x := v.x - 0.05 }
  | .pitchDown => { v with x := v.x + 0.05 }
  | .yawLeft => { v with y := v.y - 0.05 }
  | .yawRight => { v with y := v.y + 0.05 }
  | .rollLeft => { v with z := v.z - 0.05 }
  | .rollRight => { v with z := v.z + 0.05 }
  | _ => v

/-- Total thrust contributed by one `update` call's events. -/
def eventsThrust (events : List InputEvent) : Vec3 :=
  events.foldl thrustStep Vec3.zero

/-- Total torque contributed by one `update` call's events. -/
def eventsTorque (events : List InputEvent) : Vec3 :=
  events.foldl torqueStep Vec3.zero

/-- Rust `f32::round`: round half away from zero. -/
noncomputable def rustRound (r : ℝ) : ℤ :=
  if 0 ≤ r then ⌊r + 1 / 2⌋ else ⌈r - 1 / 2⌉

/-- Rust `as i32` applied to an `f32` value: truncation toward zero,
saturating to the `i32` range; composed here with `f32::round` as in
`(x / spacing).round() as i32`. -/
noncomputable def roundToI32 (r : ℝ) : ℤ :=
  max (-(2 ^ 31)) (min (2 ^ 31 - 1) (rustRound r))

/-- The inclusive integer range `lo..=hi` of the grid loops. -/
def intRangeIncl (lo hi : ℤ) : List ℤ :=
  (List.range (hi + 1 - lo).toNat).map (fun i => lo + (i : ℤ))

/-- `Renderer::render_cube_at`: project the 8 corners, then draw the 12
wireframe edges whose endpoints both projected. -/
noncomputable def renderCubeAt (viewProj : Mat4) (centerX centerY centerZ size : ℝ)
    (color : Color) (b : PixelBuffer) : PixelBuffer :=
  let halfSize := size / 2
  let corners : List Vec3 :=
    [⟨centerX - halfSize, centerY - halfSize, centerZ - halfSize⟩,
     ⟨centerX + halfSize, centerY - halfSize, centerZ - halfSize⟩,
     ⟨centerX + halfSize, centerY + halfSize, centerZ - halfSize⟩,
     ⟨centerX - halfSize, centerY + halfSize, centerZ - halfSize⟩,
     ⟨centerX - halfSize, centerY - halfSize, centerZ + halfSize⟩,
     ⟨centerX + halfSize, centerY - halfSize, centerZ + halfSize⟩,
     ⟨centerX + halfSize, centerY + halfSize, centerZ + halfSize⟩,
     ⟨centerX - halfSize, centerY + halfSize, centerZ + halfSize⟩]
  let screenCorners : List (Option (ℕ × ℕ)) :=
    corners.map (fun corner =>
      match worldToScreen corner viewProj b.width b.height with
      | some screenPos => some (f32toU32 screenPos.1, f32toU32 screenPos.2.1)
      | none => none)
  let edges : List (ℕ × ℕ × Color) :=
    [(0, 1, color), (1, 2, color), (2, 3, color), (3, 0, color),
     (4, 5, color), (5, 6, color), (6, 7, color), (7, 4, color),
     (0, 4, color), (1, 5, color), (2, 6, color), (3, 7, color)]
  edges.foldl (fun bAcc edge =>
    match screenCorners[edge.1]?, screenCorners[edge.2.1]? with
    | some (some st), some (some en) =>
        bAcc.drawLine st.1 st.2 en.1 en.2 edge.2.2
    | _, _ => bAcc) b

/-- `Renderer::render_room`: the sparse 3×3×3 grid of reference cubes,
re-centred on the drone's rounded grid cell. -/
noncomputable def renderRoom (physics : PhysicsWorld) (viewProj : Mat4)
    (b : PixelBuffer) : PixelBuffer :=
  let cubeColor : Color := ⟨255, 255, 255, 255⟩
  let dronePos := physics.getDronePosition
  let cubeSize : ℝ := 2
  let cubeSpacing : ℝ := 15
  let gridRadius : ℤ := 1
  let gridCenterX := roundToI32 (dronePos.x / cubeSpacing)
  let gridCenterY := roundToI32 (dronePos.y / cubeSpacing)
  let gridCenterZ := roundToI32 (dronePos.z / cubeSpacing)
  (intRangeIncl (gridCenterX - gridRadius) (gridCenterX + gridRadius)).foldl
    (fun bX gx =>
      (intRangeIncl (gridCenterY - gridRadius) (gridCenterY + gridRadius)).foldl
        (fun bY gy =>
          (intRangeIncl (gridCenterZ - gridRadius) (gridCenterZ + gridRadius)).foldl
            (fun bZ gz =>
              renderCubeAt viewProj ((gx : ℝ) * cubeSpacing) ((gy : ℝ) * cubeSpacing)
                ((gz : ℝ) * cubeSpacing) cubeSize cubeColor bZ)
            bY)
        bX)
    b

/-- `Renderer::render_drone`: project the drone position and, when the
16×16 marker fits entirely inside the buffer, draw the red cross and the
4×4 centre dot; otherwise draw nothing. -/
noncomputable def renderDrone (physics : PhysicsWorld) (viewProj : Mat4)
    (b : PixelBuffer) : PixelBuffer :=
  let dronePos := physics.getDronePosition
  match worldToScreen dronePos viewProj b.width b.height with
  | none => b
  | some screenPos =>
    let x := f32toU32 screenPos.1
    let y := f32toU32 screenPos.2.1
    let droneColor : Color := ⟨255, 0, 0, 255⟩
    let size : ℕ := 8
    if size ≤ x ∧ size ≤ y ∧ x + size < b.width ∧ y + size < b.height then
      let b1 := b.drawLine (x - size) y (x + size) y droneColor
      let b2 := b1.drawLine x (y - size) x (y + size) droneColor
      b2.drawRect (x - 2) (y - 2) 4 4 droneColor
    else
      b

/-- Body of `Renderer::render`: clear to the dark background, compute the
view-projection matrix, draw the cube grid, then the drone marker. -/
noncomputable def renderBuffer (physics : PhysicsWorld) (camera : Camera)
    (b : PixelBuffer) : PixelBuffer :=
  let b1 := b.clear ⟨20, 20, 30, 255⟩
  let viewProj := camera.getViewProjectionMatrix
  let b2 := renderRoom physics viewProj b1
  renderDrone physics viewProj b2

/-- `Renderer::render`: mutates only the pixel buffer. -/
noncomputable def Renderer.render (r : Renderer) : Renderer :=
  { r with buffer := renderBuffer r.physics r.camera r.buffer }

/-- Renderer states reachable through the public per-frame interface. -/
inductive RendererReachable : Renderer → Prop where
  | new : RendererReachable Renderer.new
  | update {r : Renderer} (dt : ℝ) (events : List InputEvent) :
      RendererReachable r → RendererReachable (r.update dt events)
  | render {r : Renderer} : RendererReachable r → RendererReachable r.render

/-- The shape data of a pixel buffer: width, height and pixel count.  Every
drawing operation preserves it. -/
def dims (b : PixelBuffer) : ℕ × ℕ × ℕ :=
  (b.width, b.height, b.pixels.length)

end Bhumi

namespace Bhumi

/-! Basic preservation lemmas for the pixel-buffer operations. -/

theorem setPixel_width (b : PixelBuffer) (x y : ℕ) (c : Color) :
    ((b.setPixel x y c).1).width = b.width := by
  unfold PixelBuffer.setPixel
  split
  · rfl
  · dsimp only; split <;> rfl

theorem setPixel_height (b : PixelBuffer) (x y : ℕ) (c : Color) :
    ((b.setPixel x y c).1).height = b.height := by
  unfold PixelBuffer.setPixel
  split
  · rfl
  · dsimp only; split <;> rfl

theorem setPixel_length (b : PixelBuffer) (x y : ℕ) (c : Color) :
    ((b.setPixel x y c).1).pixels.length = b.pixels.length := by
  unfold PixelBuffer.setPixel
  split
  · rfl
  · dsimp only
    split
    · simp [List.length_set]
    · rfl

theorem setPx_width (b : PixelBuffer) (x y : ℕ) (c : Color) :
    (b.setPx x y c).width = b.width := setPixel_width b x y c

theorem setPx_height (b : PixelBuffer) (x y : ℕ) (c : Color) :
    (b.setPx x y c).height = b.height := setPixel_height b x y c

theorem setPx_length (b : PixelBuffer) (x y : ℕ) (c : Color) :
    (b.setPx x y c).pixels.length = b.pixels.length := setPixel_length b x y c

theorem pixel_index_lt {x y w h len : ℕ} (hx : x < w) (hy : y < h)
    (hlen : len = w * h) : y * w + x < len := by
  subst hlen
  calc y * w + x < y * w + w := Nat.add_lt_add_left hx _
    _ = (y + 1) * w := by ring
    _ ≤ h * w := Nat.mul_le_mul_right w (Nat.succ_le_of_lt hy)
    _ = w * h := Nat.mul_comm h w

theorem getPixel_setPx_self (b : PixelBuffer) (x y : ℕ) (c : Color)
    (hlen : b.pixels.length = b.width * b.height)
    (hx : x < b.width) (hy : y < b.height) :
    (b.setPx x y c).getPixel x y = some c := by
  have hcond : ¬(x ≥ b.width ∨ y ≥ b.height) := by push_neg; exact ⟨hx, hy⟩
  have hidx : y * b.width + x < b.pixels.length := pixel_index_lt hx hy hlen
  unfold PixelBuffer.setPx PixelBuffer.setPixel PixelBuffer.getPixel
  rw [if_neg hcond]
  dsimp only
  rw [if_pos hidx]
  dsimp only
  rw [if_neg hcond]
  exact List.getElem?_set_eq_of_lt c hidx

theorem getPixel_setPx_ne (b : PixelBuffer) (x y : ℕ) (c : Color) (i j : ℕ)
    (hne : ¬(i = x ∧ j = y)) :
    (b.setPx x y c).getPixel i j = b.getPixel i j := by
  unfold PixelBuffer.setPx PixelBuffer.setPixel
  split
  · rfl
  · rename_i hcond
    push_neg at hcond
    obtain ⟨hx, hy⟩ := hcond
    dsimp only
    split
    · unfold PixelBuffer.getPixel
      dsimp only
      by_cases hij : i ≥ b.width ∨ j ≥ b.height
      · rw [if_pos hij, if_pos hij]
      · push_neg at hij
        obtain ⟨hi, hj⟩ := hij
        rw [if_neg (by push_neg; exact ⟨hi, hj⟩), if_neg (by push_neg; exact ⟨hi, hj⟩)]
        apply List.getElem?_set_ne
        intro heq
        apply hne
        constructor
        · have h1 : (y * b.width + x) % b.width = x % b.width := by
            rw [Nat.add_comm, Nat.add_mul_mod_self_right]
          have h2 : (j * b.width + i) % b.width = i % b.width := by
            rw [Nat.add_comm, Nat.add_mul_mod_self_right]
          rw [heq] at h1
          rw [h2] at h1
          rw [Nat.mod_eq_of_lt hi, Nat.mod_eq_of_lt hx] at h1
          exact h1
        · have h1 : (y * b.width + x) / b.width = y := by
            rw [Nat.add_comm, Nat.add_mul_div_right _ _ (Nat.pos_of_ne_zero (by omega)),
              Nat.div_eq_of_lt hx, Nat.zero_add]
          have h2 : (j * b.width + i) / b.width = j := by
            rw [Nat.add_comm, Nat.add_mul_div_right _ _ (Nat.pos_of_ne_zero (by omega)),
              Nat.div_eq_of_lt hi, Nat.zero_add]
          rw [heq] at h1
          rw [h2] at h1
          exact h1
    · rfl

/-- C2: in-bounds `set_pixel` returns `true` and the written colour is read
back by `get_pixel`; out-of-bounds `set_pixel` returns `false`, `get_pixel`
returns `none` and the buffer is unchanged; `pixels.len() == width * height`
is established by `PixelBuffer::new` and preserved by `set_pixel`. -/
theorem C2_set_get_contract (b : PixelBuffer) (x y : ℕ) (c : Color)
    (hlen : b.pixels.length = b.width * b.height) :
    (x < b.width → y < b.height →
      (b.setPixel x y c).2 = true ∧ (b.setPixel x y c).1.getPixel x y = some c) ∧
    (b.width ≤ x ∨ b.height ≤ y →
      (b.setPixel x y c).2 = false ∧ b.getPixel x y = none ∧ (b.setPixel x y c).1 = b) ∧
    (b.setPixel x y c).1.pixels.length =
      (b.setPixel x y c).1.width * (b.setPixel x y c).1.height ∧
    PixelBuffer.new.pixels.length = PixelBuffer.new.width * PixelBuffer.new.height := by
  refine ⟨fun hx hy => ⟨?_, getPixel_setPx_self b x y c hlen hx hy⟩, fun hoob => ⟨?_, ?_, ?_⟩, ?_, ?_⟩
  · have hcond : ¬(x ≥ b.width ∨ y ≥ b.height) := by push_neg; exact ⟨hx, hy⟩
    have hidx : y * b.width + x < b.pixels.length := pixel_index_lt hx hy hlen
    unfold PixelBuffer.setPixel
    rw [if_neg hcond]
    dsimp only
    rw [if_pos hidx]
  · unfold PixelBuffer.setPixel
    rw [if_pos (by omega)]
  · unfold PixelBuffer.getPixel
    rw [if_pos (by omega)]
  · unfold PixelBuffer.setPixel
    rw [if_pos (by omega)]
  · rw [setPixel_length, setPixel_width, setPixel_height]
    exact hlen
  · show (List.replicate (320 * 240) (⟨0, 0, 0, 255⟩ : Color)).length = 320 * 240
    exact List.length_replicate _ _

theorem i32toU32_u32toI32 {n : ℕ} (h : n < 2 ^ 32) : i32toU32 (u32toI32 n) = n := by
  unfold u32toI32 i32toU32
  split <;> omega

theorem drawLine_degenerate (b : PixelBuffer) (x y : ℕ) (c : Color)
    (hx : x < 2 ^ 32) (hy : y < 2 ^ 32) :
    b.drawLine x y x y c = b.setPx x y c := by
  have hfx := i32toU32_u32toI32 hx
  have hfy := i32toU32_u32toI32 hy
  simp [PixelBuffer.drawLine, PixelBuffer.drawLineLoop, hfx, hfy]

theorem setPx_oob (b : PixelBuffer) (x y : ℕ) (c : Color)
    (h : b.width ≤ x ∨ b.height ≤ y) : b.setPx x y c = b := by
  unfold PixelBuffer.setPx PixelBuffer.setPixel
  rw [if_pos (by omega)]

/-- C8 (amended): the degenerate call `draw_line(x, y, x, y, c)` performs
exactly one `set_pixel` call, at `(x, y)`: when `(x, y)` is in bounds it sets
exactly that pixel to `c` and no other, and when `(x, y)` is out of bounds it
sets no pixel at all. -/
theorem C8_drawLine_degenerate (b : PixelBuffer) (x y : ℕ) (c : Color)
    (hx : x < 2 ^ 32) (hy : y < 2 ^ 32) :
    b.drawLine x y x y c = b.setPx x y c ∧
    (b.pixels.length = b.width * b.height → x < b.width → y < b.height →
      (b.drawLine x y x y c).getPixel x y = some c ∧
      ∀ i j : ℕ, ¬(i = x ∧ j = y) →
        (b.drawLine x y x y c).getPixel i j = b.getPixel i j) ∧
    (b.width ≤ x ∨ b.height ≤ y → b.drawLine x y x y c = b) := by
  have h0 := drawLine_degenerate b x y c hx hy
  refine ⟨h0, fun hlen hxb hyb => ⟨?_, fun i j hne => ?_⟩, fun hoob => ?_⟩
  · rw [h0]; exact getPixel_setPx_self b x y c hlen hxb hyb
  · rw [h0]; exact getPixel_setPx_ne b x y c i j hne
  · rw [h0]; exact setPx_oob b x y c hoob

/-- Witness for C8 at the in-bounds coordinate (1, 1) of a 2×2 buffer. -/
theorem C8_drawLine_degenerate_witness :
    (⟨2, 2, List.replicate 4 ⟨0, 0, 0, 255⟩⟩ : PixelBuffer).drawLine 1 1 1 1 ⟨255, 0, 0, 255⟩
      = (⟨2, 2, List.replicate 4 ⟨0, 0, 0, 255⟩⟩ : PixelBuffer).setPx 1 1 ⟨255, 0, 0, 255⟩ ∧
    ((⟨2, 2, List.replicate 4 ⟨0, 0, 0, 255⟩⟩ : PixelBuffer).drawLine 1 1 1 1
      ⟨255, 0, 0, 255⟩).getPixel 1 1 = some ⟨255, 0, 0, 255⟩ :=
  ⟨(C8_drawLine_degenerate ⟨2, 2, List.replicate 4 ⟨0, 0, 0, 255⟩⟩ 1 1 ⟨255, 0, 0, 255⟩
      (by decide) (by decide)).1,
   ((C8_drawLine_degenerate ⟨2, 2, List.replicate 4 ⟨0, 0, 0, 255⟩⟩ 1 1 ⟨255, 0, 0, 255⟩
      (by decide) (by decide)).2.1 rfl (by decide) (by decide)).1⟩

/-- Counterexample for C8 as stated: at the out-of-bounds coordinate (5, 5)
of a 2×2 buffer, the degenerate call sets no pixel at all — the buffer is
unchanged and `get_pixel(5, 5)` does not return the written colour. -/
theorem C8_counterexample :
    (⟨2, 2, List.replicate 4 ⟨0, 0, 0, 255⟩⟩ : PixelBuffer).drawLine 5 5 5 5 ⟨255, 0, 0, 255⟩
      = ⟨2, 2, List.replicate 4 ⟨0, 0, 0, 255⟩⟩ ∧
    ((⟨2, 2, List.replicate 4 ⟨0, 0, 0, 255⟩⟩ : PixelBuffer).drawLine 5 5 5 5
      ⟨255, 0, 0, 255⟩).getPixel 5 5 = none := by
  decide

/-- C1: `world_to_screen` returns `none` exactly when the homogeneous `w`
component of `VP * p` is ≤ 0; for `w > 0` it returns the Y-flipped screen
coordinates `((ndc_x + 1) * 0.5 * width, (1 - ndc_y) * 0.5 * height)` with
depth `ndc_z`; and no frustum clipping is performed, witnessed by a point
with `w > 0` whose screen x lies at 640, outside a 320-wide buffer. -/
theorem C1_worldToScreen_contract (p : Vec3) (vp : Mat4) (w h : ℕ) :
    (worldToScreen p vp w h = none ↔ vp.mulVec (toHomogeneous p) 3 ≤ 0) ∧
    (0 < vp.mulVec (toHomogeneous p) 3 →
      worldToScreen p vp w h = some
        ((vp.mulVec (toHomogeneous p) 0 / vp.mulVec (toHomogeneous p) 3 + 1) * 0.5 * (w : ℝ),
         (1 - vp.mulVec (toHomogeneous p) 1 / vp.mulVec (toHomogeneous p) 3) * 0.5 * (h : ℝ),
         vp.mulVec (toHomogeneous p) 2 / vp.mulVec (toHomogeneous p) 3)) ∧
    (∃ q : Vec3, ∃ sx sy d : ℝ,
      worldToScreen q 1 320 240 = some (sx, sy, d) ∧ ¬sx < 320) := by
  refine ⟨?_, ?_, ?_⟩
  · unfold worldToScreen
    dsimp only
    split
    · rename_i hle
      exact ⟨fun _ => hle, fun _ => rfl⟩
    · rename_i hgt
      exact ⟨fun hcontra => absurd hcontra (by simp), fun hle => absurd hle hgt⟩
  · intro hpos
    unfold worldToScreen
    dsimp only
    rw [if_neg (not_le.mpr hpos)]
  · refine ⟨⟨3, 0, 0⟩, 640, 120, 0, ?_, by norm_num⟩
    have hone : (1 : Mat4).mulVec (toHomogeneous ⟨3, 0, 0⟩) = toHomogeneous ⟨3, 0, 0⟩ :=
      Matrix.one_mulVec _
    unfold worldToScreen
    dsimp only
    rw [hone]
    have h3 : toHomogeneous ⟨3, 0, 0⟩ 3 = 1 := rfl
    have h0 : toHomogeneous ⟨3, 0, 0⟩ 0 = 3 := rfl
    have h1 : toHomogeneous ⟨3, 0, 0⟩ 1 = 0 := rfl
    have h2 : toHomogeneous ⟨3, 0, 0⟩ 2 = 0 := rfl
    rw [h3, h0, h1, h2, if_neg (by norm_num)]
    norm_num

/-- Witness for C1: the origin seen through the identity view-projection on
a 320×240 screen projects to the screen centre (160, 120). -/
theorem C1_worldToScreen_contract_witness :
    worldToScreen ⟨0, 0, 0⟩ 1 320 240 = some (160, 120, 0) := by
  have hw : (1 : Mat4).mulVec (toHomogeneous ⟨0, 0, 0⟩) = toHomogeneous ⟨0, 0, 0⟩ :=
    Matrix.one_mulVec _
  have hpos : (0 : ℝ) < (1 : Mat4).mulVec (toHomogeneous ⟨0, 0, 0⟩) 3 := by
    rw [hw]
    norm_num [toHomogeneous]
  have h := (C1_worldToScreen_contract ⟨0, 0, 0⟩ 1 320 240).2.1 hpos
  rw [h, hw]
  have h3 : toHomogeneous ⟨0, 0, 0⟩ 3 = 1 := rfl
  have h0 : toHomogeneous ⟨0, 0, 0⟩ 0 = 0 := rfl
  have h1 : toHomogeneous ⟨0, 0, 0⟩ 1 = 0 := rfl
  have h2 : toHomogeneous ⟨0, 0, 0⟩ 2 = 0 := rfl
  rw [h3, h0, h1, h2]
  norm_num

/-- C7 (amended): `Camera::update(p)` always sets the target to `p` and the
position to `p` plus the fixed offset `(-1.5, 1.0, -2.0)`, irrespective of
the camera mode; `set_mode` records the new mode in the `mode` field but
does not change the behaviour of subsequent `update` calls. -/
theorem C7_camera_update (c : Camera) (p : Vec3) (m : CameraMode) :
    (c.update p).target = p ∧
    (c.update p).position = p + (⟨-1.5, 1.0, -2.0⟩ : Vec3) ∧
    (c.setMode m).mode = m ∧
    ((c.setMode m).update p).position = (c.update p).position ∧
    ((c.setMode m).update p).target = (c.update p).target :=
  ⟨rfl, rfl, rfl, rfl, rfl⟩

/-- Counterexample for C7 as stated: switching `Camera::new` from
third-person to first-person mode changes the `mode` field but the next
`update` call computes exactly the same position and target as without the
mode switch — the offset does not depend on the mode and `set_mode` does not
switch the behaviour of `update`. -/
theorem C7_counterexample :
    (Camera.new.setMode CameraMode.firstPerson).mode ≠ Camera.new.mode ∧
    ((Camera.new.setMode CameraMode.firstPerson).update ⟨0, 0, 0⟩).position
      = (Camera.new.update ⟨0, 0, 0⟩).position ∧
    ((Camera.new.setMode CameraMode.firstPerson).update ⟨0, 0, 0⟩).target
      = (Camera.new.update ⟨0, 0, 0⟩).target := by
  refine ⟨?_, rfl, rfl⟩
  intro h
  exact CameraMode.noConfusion h

theorem Vec3.add_x (a b : Vec3) : (a + b).x = a.x + b.x := rfl

theorem Vec3.add_y (a b : Vec3) : (a + b).y = a.y + b.y := rfl

theorem Vec3.add_z (a b : Vec3) : (a + b).z = a.z + b.z := rfl

theorem Vec3.smul_x (c : ℝ) (v : Vec3) : (c • v).x = c * v.x := rfl

theorem Vec3.smul_y (c : ℝ) (v : Vec3) : (c • v).y = c * v.y := rfl

theorem Vec3.smul_z (c : ℝ) (v : Vec3) : (c • v).z = c * v.z := rfl

theorem Vec3.smul_zero_vec (c : ℝ) : c • Vec3.zero = Vec3.zero := by
  ext <;> simp [Vec3.smul_x, Vec3.smul_y, Vec3.smul_z, Vec3.zero]

theorem Vec3.add_zero_vec (v : Vec3) : v + Vec3.zero = v := by
  ext <;> simp [Vec3.add_x, Vec3.add_y, Vec3.add_z, Vec3.zero]

theorem Vec3.smul_assoc_vec (a b : ℝ) (v : Vec3) : a • b • v = (a * b) • v := by
  ext <;> simp [Vec3.smul_x, Vec3.smul_y, Vec3.smul_z] <;> ring

theorem Vec3.sqLength_nonneg (v : Vec3) : 0 ≤ v.sqLength := by
  unfold Vec3.sqLength
  have hx := mul_self_nonneg v.x
  have hy := mul_self_nonneg v.y
  have hz := mul_self_nonneg v.z
  linarith

theorem Vec3.length_nonneg (v : Vec3) : 0 ≤ v.length :=
  Real.sqrt_nonneg _

theorem Vec3.sqLength_smul (c : ℝ) (v : Vec3) :
    (c • v).sqLength = c ^ 2 * v.sqLength := by
  unfold Vec3.sqLength
  simp only [Vec3.smul_x, Vec3.smul_y, Vec3.smul_z]
  ring

theorem Vec3.length_smul (c : ℝ) (v : Vec3) : (c • v).length = |c| * v.length := by
  unfold Vec3.length
  rw [Vec3.sqLength_smul, Real.sqrt_mul (sq_nonneg c), Real.sqrt_sq_eq_abs]

theorem Vec3.sq_length (v : Vec3) : v.length ^ 2 = v.sqLength := by
  unfold Vec3.length
  exact Real.sq_sqrt v.sqLength_nonneg

theorem quaternion_norm_eq_one_of_normSq {q : Quaternion ℝ}
    (h : Quaternion.normSq q = 1) : ‖q‖ = 1 := by
  have h2 : ‖q‖ * ‖q‖ = 1 := by
    rw [← Quaternion.normSq_eq_norm_mul_self, h]
  rcases mul_self_eq_one_iff.mp h2 with h1 | h1
  · exact h1
  · exfalso
    have := norm_nonneg q
    rw [h1] at this
    linarith

theorem norm_fromAxisAngle {axis : Vec3} (h : axis.sqLength = 1) (angle : ℝ) :
    ‖fromAxisAngle axis angle‖ = 1 := by
  apply quaternion_norm_eq_one_of_normSq
  rw [Quaternion.normSq_def']
  unfold fromAxisAngle
  unfold Vec3.sqLength at h
  have hpyth := Real.sin_sq_add_cos_sq (angle / 2)
  dsimp only
  nlinarith [hpyth, h]

theorem norm_fromScaledAxis (v : Vec3) : ‖fromScaledAxis v‖ = 1 := by
  unfold fromScaledAxis
  split
  · exact norm_one
  · rename_i hv
    apply norm_fromAxisAngle
    rw [Vec3.sqLength_smul]
    have hL2 : v.length ^ 2 = v.sqLength := v.sq_length
    rw [← hL2]
    field_simp

theorem norm_fromEulerXYZ (a b c : ℝ) : ‖fromEulerXYZ a b c‖ = 1 := by
  unfold fromEulerXYZ
  rw [norm_mul, norm_mul]
  rw [norm_fromAxisAngle (by norm_num [Vec3.sqLength]),
    norm_fromAxisAngle (by norm_num [Vec3.sqLength]),
    norm_fromAxisAngle (by norm_num [Vec3.sqLength])]
  norm_num

theorem norm_qNormalize {q : Quaternion ℝ} (h : q ≠ 0) : ‖qNormalize q‖ = 1 := by
  unfold qNormalize
  rw [norm_smul, Real.norm_eq_abs, abs_inv, abs_norm]
  exact inv_mul_cancel₀ (norm_ne_zero_iff.mpr h)

theorem webStep_rotation_norm {w : Bhumi.WebPhysicsWorld} (hrot : ‖w.rotation‖ = 1)
    (dt : ℝ) (f : Vec3) : ‖(w.step dt f).rotation‖ = 1 := by
  unfold WebPhysicsWorld.step
  dsimp only
  split
  · apply norm_qNormalize
    rw [← norm_ne_zero_iff, norm_mul, norm_fromScaledAxis, hrot]
    norm_num
  · exact hrot

theorem webApplyRotationDelta_rotation_norm {w : Bhumi.WebPhysicsWorld}
    (hrot : ‖w.rotation‖ = 1) (d : Vec3) :
    ‖(w.applyRotationDelta d).rotation‖ = 1 := by
  unfold WebPhysicsWorld.applyRotationDelta
  dsimp only
  apply norm_qNormalize
  rw [← norm_ne_zero_iff, norm_mul, norm_fromEulerXYZ, hrot]
  norm_num

/-- C10: the web drone orientation is a unit quaternion in every reachable
state: identity (hence unit) at construction and after `reset_drone`,
preserved by `step` (which leaves it unchanged below the 0.001 damped
angular-speed threshold and renormalises above it) and by
`apply_rotation_delta` (which renormalises after composing the delta). -/
theorem C10_rotation_unit :
    (WebPhysicsWorld.new.rotation = 1 ∧ ‖WebPhysicsWorld.new.rotation‖ = 1) ∧
    (∀ w : WebPhysicsWorld, w.resetDrone.rotation = 1 ∧ ‖w.resetDrone.rotation‖ = 1) ∧
    (∀ (w : WebPhysicsWorld) (dt : ℝ) (f : Vec3),
      ‖w.rotation‖ = 1 → ‖(w.step dt f).rotation‖ = 1) ∧
    (∀ (w : WebPhysicsWorld) (dt : ℝ) (f : Vec3),
      (w.angular_damping • w.angular_velocity).length ≤ 0.001 →
        (w.step dt f).rotation = w.rotation) ∧
    (∀ (w : WebPhysicsWorld) (d : Vec3),
      ‖w.rotation‖ = 1 → ‖(w.applyRotationDelta d).rotation‖ = 1) ∧
    (∀ w : WebPhysicsWorld, WebReachable w → ‖w.rotation‖ = 1) := by
  refine ⟨⟨rfl, norm_one⟩, fun w => ⟨rfl, norm_one⟩, fun w dt f h => webStep_rotation_norm h dt f,
    fun w dt f hsmall => ?_, fun w d h => webApplyRotationDelta_rotation_norm h d, ?_⟩
  · unfold WebPhysicsWorld.step
    dsimp only
    rw [if_neg (not_lt.mpr hsmall)]
  · intro w hw
    induction hw with
    | new => exact norm_one
    | step dt f _ ih => exact webStep_rotation_norm ih dt f
    | applyRotationDelta d _ ih => exact webApplyRotationDelta_rotation_norm ih d
    | resetDrone _ _ => exact norm_one
    | gentleStop _ ih => exact ih
    | emergencyBrake _ ih => exact ih

/-- Witness for C10: one no-input step from the freshly constructed world
keeps the orientation at unit norm. -/
theorem C10_rotation_unit_witness :
    ‖(WebPhysicsWorld.new.step (1 / 60) Vec3.zero).rotation‖ = 1 :=
  C10_rotation_unit.2.2.2.2.2 _ (WebReachable.step (1 / 60) Vec3.zero WebReachable.new)

theorem webStep_velocity (w : WebPhysicsWorld) (dt : ℝ) (f : Vec3) :
    (w.step dt f).velocity = w.linear_damping • (w.velocity + dt • f) := rfl

theorem webStep_linear_damping (w : WebPhysicsWorld) (dt : ℝ) (f : Vec3) :
    (w.step dt f).linear_damping = w.linear_damping := rfl

theorem webIter_linear_damping (w : WebPhysicsWorld) (dt : ℝ) (n : ℕ) :
    ((fun s => WebPhysicsWorld.step s dt Vec3.zero)^[n] w).linear_damping
      = w.linear_damping := by
  induction n with
  | zero => rfl
  | succ n ih =>
    rw [Function.iterate_succ_apply', webStep_linear_damping, ih]

theorem webIter_velocity (w : WebPhysicsWorld) (dt : ℝ) (n : ℕ) :
    ((fun s => WebPhysicsWorld.step s dt Vec3.zero)^[n] w).velocity
      = w.linear_damping ^ n • w.velocity := by
  induction n with
  | zero => rw [Function.iterate_zero_apply, pow_zero]; ext <;> simp [Vec3.smul_x, Vec3.smul_y, Vec3.smul_z]
  | succ n ih =>
    rw [Function.iterate_succ_apply', webStep_velocity, webIter_linear_damping,
      Vec3.smul_zero_vec, Vec3.add_zero_vec, ih, Vec3.smul_assoc_vec, ← pow_succ']

/-- C4: with no input force and damping below 1, repeated no-event steps
never increase the drone speed, and the speed tends monotonically to zero. -/
theorem C4_no_input_speed_decay (w : WebPhysicsWorld) (dt : ℝ)
    (hd0 : 0 ≤ w.linear_damping) (hd1 : w.linear_damping < 1)
    (hv : w.velocity ≠ Vec3.zero) :
    (∀ n : ℕ,
      ((fun s => WebPhysicsWorld.step s dt Vec3.zero)^[n + 1] w).velocity.length
        ≤ ((fun s => WebPhysicsWorld.step s dt Vec3.zero)^[n] w).velocity.length) ∧
    Filter.Tendsto
      (fun n : ℕ => ((fun s => WebPhysicsWorld.step s dt Vec3.zero)^[n] w).velocity.length)
      Filter.atTop (nhds 0) := by
  have hlen : ∀ n : ℕ,
      ((fun s => WebPhysicsWorld.step s dt Vec3.zero)^[n] w).velocity.length
        = w.linear_damping ^ n * w.velocity.length := by
    intro n
    rw [webIter_velocity, Vec3.length_smul, abs_of_nonneg (pow_nonneg hd0 n)]
  constructor
  · intro n
    rw [hlen, hlen]
    exact mul_le_mul_of_nonneg_right
      (pow_le_pow_of_le_one hd0 hd1.le (Nat.le_succ n)) w.velocity.length_nonneg
  · have h0 := tendsto_pow_atTop_nhds_zero_of_lt_one hd0 hd1
    have h1 := h0.mul_const w.velocity.length
    rw [zero_mul] at h1
    refine Filter.Tendsto.congr (fun n => (hlen n).symm) h1

/-- Witness for C4: from a state moving at unit speed along x with damping
0.9, the first no-input step does not increase the speed. -/
theorem C4_no_input_speed_decay_witness :
    ((fun s => WebPhysicsWorld.step s (1 / 60) Vec3.zero)^[0 + 1]
        ⟨⟨0, 0, -3⟩, ⟨1, 0, 0⟩, 1, Vec3.zero, 0.9, 0.9⟩).velocity.length
      ≤ ((fun s => WebPhysicsWorld.step s (1 / 60) Vec3.zero)^[0]
        ⟨⟨0, 0, -3⟩, ⟨1, 0, 0⟩, 1, Vec3.zero, 0.9, 0.9⟩).velocity.length :=
  (C4_no_input_speed_decay ⟨⟨0, 0, -3⟩, ⟨1, 0, 0⟩, 1, Vec3.zero, 0.9, 0.9⟩ (1 / 60)
    (by norm_num) (by norm_num)
    (fun h => one_ne_zero (congrArg Vec3.x h))).1 0

/-- C6: `reset_drone` puts the drone at the fixed start position
`(0, 0, -3)` with zero linear and angular velocity, from any prior state,
in both the rapier-backed `PhysicsWorld` and the `WebPhysicsWorld`. -/
theorem C6_reset_drone (pw : PhysicsWorld) (w : WebPhysicsWorld) :
    pw.resetDrone.getDronePosition = ⟨0, 0, -3⟩ ∧
    pw.resetDrone.getDroneVelocity = Vec3.zero ∧
    pw.resetDrone.drone.angvel = Vec3.zero ∧
    w.resetDrone.getDronePosition = ⟨0, 0, -3⟩ ∧
    w.resetDrone.getDroneVelocity = Vec3.zero ∧
    w.resetDrone.angular_velocity = Vec3.zero :=
  ⟨rfl, rfl, rfl, rfl, rfl, rfl⟩

theorem Vec3.zero_add_vec (v : Vec3) : Vec3.zero + v = v := by
  ext <;> simp [Vec3.add_x, Vec3.add_y, Vec3.add_z, Vec3.zero]

theorem Vec3.add_assoc_vec (a b c : Vec3) : a + b + c = a + (b + c) := by
  ext <;> simp [Vec3.add_x, Vec3.add_y, Vec3.add_z] <;> ring

theorem processEvent_thrust (r : Renderer) (e : InputEvent) :
    (r.processEvent e).thrust_force = thrustStep r.thrust_force e := by
  cases e <;> rfl

theorem processEvent_torque (r : Renderer) (e : InputEvent) :
    (r.processEvent e).angular_force = torqueStep r.angular_force e := by
  cases e <;> rfl

theorem foldl_processEvent_thrust (events : List InputEvent) (r : Renderer) :
    (events.foldl Renderer.processEvent r).thrust_force
      = events.foldl thrustStep r.thrust_force := by
  induction events generalizing r with
  | nil => rfl
  | cons e es ih =>
    rw [List.foldl_cons, List.foldl_cons, ih, processEvent_thrust]

theorem foldl_processEvent_torque (events : List InputEvent) (r : Renderer) :
    (events.foldl Renderer.processEvent r).angular_force
      = events.foldl torqueStep r.angular_force := by
  induction events generalizing r with
  | nil => rfl
  | cons e es ih =>
    rw [List.foldl_cons, List.foldl_cons, ih, processEvent_torque]

theorem thrustStep_add (u v : Vec3) (e : InputEvent) :
    thrustStep (u + v) e = u + thrustStep v e := by
  cases e <;> ext <;>
    simp [thrustStep, Vec3.add_x, Vec3.add_y, Vec3.add_z] <;> ring

theorem torqueStep_add (u v : Vec3) (e : InputEvent) :
    torqueStep (u + v) e = u + torqueStep v e := by
  cases e <;> ext <;>
    simp [torqueStep, Vec3.add_x, Vec3.add_y, Vec3.add_z] <;> ring

theorem foldl_thrustStep_shift (events : List InputEvent) (v : Vec3) :
    events.foldl thrustStep v = v + eventsThrust events := by
  induction events generalizing v with
  | nil => exact (Vec3.add_zero_vec v).symm
  | cons e es ih =>
    rw [eventsThrust, List.foldl_cons, List.foldl_cons, ih, ih (thrustStep Vec3.zero e)]
    have h1 : thrustStep v e = v + thrustStep Vec3.zero e := by
      conv_lhs => rw [← Vec3.add_zero_vec v]
      exact thrustStep_add v Vec3.zero e
    rw [h1, Vec3.add_assoc_vec]

theorem foldl_torqueStep_shift (events : List InputEvent) (v : Vec3) :
    events.foldl torqueStep v = v + eventsTorque events := by
  induction events generalizing v with
  | nil => exact (Vec3.add_zero_vec v).symm
  | cons e es ih =>
    rw [eventsTorque, List.foldl_cons, List.foldl_cons, ih, ih (torqueStep Vec3.zero e)]
    have h1 : torqueStep v e = v + torqueStep Vec3.zero e := by
      conv_lhs => rw [← Vec3.add_zero_vec v]
      exact torqueStep_add v Vec3.zero e
    rw [h1, Vec3.add_assoc_vec]

theorem update_thrust_zero (r : Renderer) (dt : ℝ) (events : List InputEvent) :
    (r.update dt events).thrust_force = Vec3.zero := rfl

theorem update_angular_zero (r : Renderer) (dt : ℝ) (events : List InputEvent) :
    (r.update dt events).angular_force = Vec3.zero := rfl

/-- C3: the force/torque accumulators are zero at construction, zero again
when every `update` returns (hence zero at the start of every `update` in
any reachable state), and the physics advances by exactly one
`step_with_torque` call whose force and torque are precisely the sums of
the current call's event contributions. -/
theorem C3_accumulators_per_frame (r : Renderer) (dt : ℝ) (events : List InputEvent) :
    (Renderer.new.thrust_force = Vec3.zero ∧ Renderer.new.angular_force = Vec3.zero) ∧
    ((r.update dt events).thrust_force = Vec3.zero ∧
      (r.update dt events).angular_force = Vec3.zero) ∧
    (RendererReachable r → r.thrust_force = Vec3.zero ∧ r.angular_force = Vec3.zero) ∧
    (r.thrust_force = Vec3.zero → r.angular_force = Vec3.zero →
      (r.update dt events).physics =
        ((events.foldl Renderer.processEvent r).physics.stepWithTorque dt
          (eventsThrust events) (eventsTorque events)).1) := by
  refine ⟨⟨rfl, rfl⟩, ⟨rfl, rfl⟩, ?_, ?_⟩
  · intro hreach
    induction hreach with
    | new => exact ⟨rfl, rfl⟩
    | update dt events _ _ => exact ⟨rfl, rfl⟩
    | render _ ih => exact ih
  · intro hthrust hturn
    show ((events.foldl Renderer.processEvent r).physics.stepWithTorque dt
      (events.foldl Renderer.processEvent r).thrust_force
      (events.foldl Renderer.processEvent r).angular_force).1 = _
    rw [foldl_processEvent_thrust, foldl_processEvent_torque, hthrust, hturn,
      foldl_thrustStep_shift, foldl_torqueStep_shift,
      Vec3.zero_add_vec, Vec3.zero_add_vec]

/-- Witness for C3: the freshly constructed renderer is reachable with zero
accumulators, and a no-event update applies exactly one step with the zero
event sums. -/
theorem C3_accumulators_per_frame_witness :
    Renderer.new.thrust_force = Vec3.zero ∧
    (Renderer.new.update (1 / 60) []).physics =
      ((([] : List InputEvent).foldl Renderer.processEvent Renderer.new).physics.stepWithTorque
        (1 / 60) (eventsThrust []) (eventsTorque [])).1 :=
  ⟨((C3_accumulators_per_frame Renderer.new (1 / 60) []).2.2.1 RendererReachable.new).1,
   (C3_accumulators_per_frame Renderer.new (1 / 60) []).2.2.2 rfl rfl⟩

theorem width_of_dims {a b : PixelBuffer} (h : dims a = dims b) : a.width = b.width :=
  congrArg (fun p => p.1) h

theorem height_of_dims {a b : PixelBuffer} (h : dims a = dims b) : a.height = b.height :=
  congrArg (fun p => p.2.1) h

theorem length_of_dims {a b : PixelBuffer} (h : dims a = dims b) :
    a.pixels.length = b.pixels.length :=
  congrArg (fun p => p.2.2) h

theorem dims_setPx (b : PixelBuffer) (x y : ℕ) (c : Color) :
    dims (b.setPx x y c) = dims b := by
  unfold dims
  rw [setPx_width, setPx_height, setPx_length]

theorem dims_foldl {α : Type} {f : PixelBuffer → α → PixelBuffer}
    (h : ∀ b a, dims (f b a) = dims b) (l : List α) (b : PixelBuffer) :
    dims (l.foldl f b) = dims b := by
  induction l generalizing b with
  | nil => rfl
  | cons a l ih =>
    rw [List.foldl_cons, ih, h]

theorem dims_drawLineLoop (c : Color) (x1i y1i dx dy sx sy : ℤ) (fuel : ℕ)
    (b : PixelBuffer) (x y err : ℤ) :
    dims (PixelBuffer.drawLineLoop c x1i y1i dx dy sx sy fuel b x y err) = dims b := by
  induction fuel generalizing b x y err with
  | zero => rfl
  | succ fuel ih =>
    rw [PixelBuffer.drawLineLoop]
    dsimp only
    split
    · exact dims_setPx b _ _ c
    · rw [ih, dims_setPx]

theorem dims_drawLine (b : PixelBuffer) (x0 y0 x1 y1 : ℕ) (c : Color) :
    dims (b.drawLine x0 y0 x1 y1 c) = dims b := by
  unfold PixelBuffer.drawLine
  exact dims_drawLineLoop _ _ _ _ _ _ _ _ b _ _ _

theorem dims_drawRect (b : PixelBuffer) (x y w h : ℕ) (c : Color) :
    dims (b.drawRect x y w h c) = dims b := by
  unfold PixelBuffer.drawRect
  exact dims_foldl (fun bRow dy => dims_foldl (fun bCol dx => dims_setPx bCol _ _ c) _ bRow) _ b

theorem dims_clear (b : PixelBuffer) (c : Color) : dims (b.clear c) = dims b := by
  unfold dims PixelBuffer.clear
  simp [List.length_replicate]

theorem dims_renderCubeAt (viewProj : Mat4) (cx cy cz size : ℝ) (color : Color)
    (b : PixelBuffer) : dims (renderCubeAt viewProj cx cy cz size color b) = dims b := by
  unfold renderCubeAt
  apply dims_foldl
  intro bAcc edge
  dsimp only
  split
  · exact dims_drawLine bAcc _ _ _ _ _
  · rfl

theorem dims_renderRoom (physics : PhysicsWorld) (viewProj : Mat4) (b : PixelBuffer) :
    dims (renderRoom physics viewProj b) = dims b := by
  unfold renderRoom
  apply dims_foldl
  intro bX gx
  apply dims_foldl
  intro bY gy
  apply dims_foldl
  intro bZ gz
  exact dims_renderCubeAt _ _ _ _ _ _ bZ

theorem dims_renderDrone (physics : PhysicsWorld) (viewProj : Mat4) (b : PixelBuffer) :
    dims (renderDrone physics viewProj b) = dims b := by
  unfold renderDrone
  dsimp only
  split
  · rfl
  · split
    · rw [dims_drawRect, dims_drawLine, dims_drawLine]
    · rfl

theorem dims_renderBuffer (physics : PhysicsWorld) (camera : Camera) (b : PixelBuffer) :
    dims (renderBuffer physics camera b) = dims b := by
  unfold renderBuffer
  rw [dims_renderDrone, dims_renderRoom, dims_clear]

theorem clear_eq_of_dims {a b : PixelBuffer} (c : Color) (h : dims a = dims b) :
    a.clear c = b.clear c := by
  unfold PixelBuffer.clear
  rw [PixelBuffer.mk.injEq]
  exact ⟨width_of_dims h, height_of_dims h, by rw [length_of_dims h]⟩

theorem renderBuffer_eq_of_dims (physics : PhysicsWorld) (camera : Camera)
    {a b : PixelBuffer} (h : dims a = dims b) :
    renderBuffer physics camera a = renderBuffer physics camera b := by
  unfold renderBuffer
  rw [clear_eq_of_dims _ h]

/-- C5: `render` is a deterministic function of the physics and camera
state (given the buffer shape): two consecutive `render` calls with no
intervening `update` produce identical pixel buffers, and two renderers
agreeing on physics, camera and buffer shape render identical buffers. -/
theorem C5_render_pure (r r1 r2 : Renderer) :
    (r.render.render).buffer = r.render.buffer ∧
    (r1.physics = r2.physics → r1.camera = r2.camera → dims r1.buffer = dims r2.buffer →
      r1.render.buffer = r2.render.buffer) := by
  constructor
  · show renderBuffer r.physics r.camera (renderBuffer r.physics r.camera r.buffer)
      = renderBuffer r.physics r.camera r.buffer
    exact renderBuffer_eq_of_dims r.physics r.camera (dims_renderBuffer _ _ _)
  · intro hp hc hd
    show renderBuffer r1.physics r1.camera r1.buffer = renderBuffer r2.physics r2.camera r2.buffer
    rw [hp, hc]
    exact renderBuffer_eq_of_dims _ _ hd

/-- Witness for C5: rendering the fresh renderer and the once-rendered
renderer (which agree on physics, camera and buffer shape) produces the
same pixels. -/
theorem C5_render_pure_witness :
    (Renderer.new.render.render).buffer = Renderer.new.render.buffer :=
  (C5_render_pure Renderer.new Renderer.new.render Renderer.new).2
    rfl rfl (dims_renderBuffer _ _ _)

theorem getPixel_rowFold (x row : ℕ) (c : Color) (i j : ℕ) (n : ℕ) :
    ∀ b : PixelBuffer, b.pixels.length = b.width * b.height →
      ((List.range n).foldl (fun bb dx => bb.setPx (x + dx) row c) b).getPixel i j
        = if x ≤ i ∧ i < x + n ∧ j = row ∧ i < b.width ∧ j < b.height then some c
          else b.getPixel i j := by
  induction n with
  | zero =>
    intro b hlen
    rw [List.range_zero, List.foldl_nil, if_neg (by omega)]
  | succ n ih =>
    intro b hlen
    rw [List.range_succ, List.foldl_append, List.foldl_cons, List.foldl_nil]
    set B := (List.range n).foldl (fun bb dx => bb.setPx (x + dx) row c) b with hB
    have hd : dims B = dims b := dims_foldl (fun bb a => dims_setPx bb _ _ c) _ b
    have hW := width_of_dims hd
    have hH := height_of_dims hd
    have hlenB : B.pixels.length = B.width * B.height := by
      rw [hW, hH, length_of_dims hd]
      exact hlen
    by_cases hij : i = x + n ∧ j = row
    · obtain ⟨hi, hj⟩ := hij
      by_cases hbnd : i < b.width ∧ j < b.height
      · have hself : (B.setPx (x + n) row c).getPixel i j = some c := by
          rw [← hi, ← hj]
          exact getPixel_setPx_self B i j c hlenB (by rw [hW]; exact hbnd.1)
            (by rw [hH]; exact hbnd.2)
        rw [hself, if_pos ⟨by omega, by omega, hj, hbnd.1, hbnd.2⟩]
      · have hoob : B.width ≤ x + n ∨ B.height ≤ row := by
          rw [hW, hH, ← hi, ← hj]
          omega
        rw [setPx_oob B _ _ _ hoob, ih b hlen, if_neg (by omega), if_neg (by omega)]
    · rw [getPixel_setPx_ne B _ _ c i j hij, ih b hlen]
      by_cases hc1 : x ≤ i ∧ i < x + n ∧ j = row ∧ i < b.width ∧ j < b.height
      · rw [if_pos hc1, if_pos (by omega)]
      · rw [if_neg hc1, if_neg (by omega)]

theorem getPixel_drawRect (x y w : ℕ) (c : Color) (i j : ℕ) (h : ℕ) :
    ∀ b : PixelBuffer, b.pixels.length = b.width * b.height →
      (b.drawRect x y w h c).getPixel i j
        = if x ≤ i ∧ i < x + w ∧ y ≤ j ∧ j < y + h ∧ i < b.width ∧ j < b.height then some c
          else b.getPixel i j := by
  induction h with
  | zero =>
    intro b hlen
    unfold PixelBuffer.drawRect
    rw [List.range_zero, List.foldl_nil, if_neg (by omega)]
  | succ h ih =>
    intro b hlen
    have hIH := ih b hlen
    unfold PixelBuffer.drawRect at hIH ⊢
    rw [List.range_succ, List.foldl_append, List.foldl_cons, List.foldl_nil]
    set B := (List.range h).foldl
      (fun bRow dy => (List.range w).foldl (fun bCol dx => bCol.setPx (x + dx) (y + dy) c) bRow)
      b with hBdef
    have hd : dims B = dims b :=
      dims_foldl (fun bb a => dims_foldl (fun bc d => dims_setPx bc _ _ c) _ bb) _ b
    have hlenB : B.pixels.length = B.width * B.height := by
      rw [width_of_dims hd, height_of_dims hd, length_of_dims hd]
      exact hlen
    rw [getPixel_rowFold x (y + h) c i j w B hlenB, hIH,
      width_of_dims hd, height_of_dims hd]
    by_cases hrow : x ≤ i ∧ i < x + w ∧ j = y + h ∧ i < b.width ∧ j < b.height
    · rw [if_pos hrow, if_pos (by omega)]
    · rw [if_neg hrow]
      by_cases hcond : x ≤ i ∧ i < x + w ∧ y ≤ j ∧ j < y + h ∧ i < b.width ∧ j < b.height
      · rw [if_pos hcond, if_pos (by omega)]
      · rw [if_neg hcond, if_neg (by omega)]

/-- C9: when the drone's projection succeeds, the marker (cross plus centre
dot) is drawn only if the truncated screen point keeps the full 8-pixel
marker inside the buffer; if the point is within 8 pixels of any edge (or
beyond it) the whole marker is skipped and the buffer is unchanged, and
when the guard holds the centre pixel is drawn in the drone's red. -/
theorem C9_drone_marker (physics : PhysicsWorld) (vp : Mat4) (b : PixelBuffer)
    (sx sy d : ℝ)
    (hlen : b.pixels.length = b.width * b.height)
    (hproj : worldToScreen physics.getDronePosition vp b.width b.height = some (sx, sy, d)) :
    (¬(8 ≤ f32toU32 sx ∧ 8 ≤ f32toU32 sy ∧ f32toU32 sx + 8 < b.width ∧
        f32toU32 sy + 8 < b.height) →
      renderDrone physics vp b = b) ∧
    ((8 ≤ f32toU32 sx ∧ 8 ≤ f32toU32 sy ∧ f32toU32 sx + 8 < b.width ∧
        f32toU32 sy + 8 < b.height) →
      (renderDrone physics vp b).getPixel (f32toU32 sx) (f32toU32 sy)
        = some ⟨255, 0, 0, 255⟩) := by
  unfold renderDrone
  dsimp only
  rw [hproj]
  dsimp only
  constructor
  · intro hguard
    rw [if_neg hguard]
  · intro hguard
    rw [if_pos hguard]
    obtain ⟨hx8, hy8, hxw, hyh⟩ := hguard
    set x := f32toU32 sx with hxdef
    set y := f32toU32 sy with hydef
    set b2 := (b.drawLine (x - 8) y (x + 8) y ⟨255, 0, 0, 255⟩).drawLine
      x (y - 8) x (y + 8) ⟨255, 0, 0, 255⟩ with hb2
    have hd2 : dims b2 = dims b := by
      rw [hb2, dims_drawLine, dims_drawLine]
    have hlen2 : b2.pixels.length = b2.width * b2.height := by
      rw [width_of_dims hd2, height_of_dims hd2, length_of_dims hd2]
      exact hlen
    rw [getPixel_drawRect (x - 2) (y - 2) 4 ⟨255, 0, 0, 255⟩ x y 4 b2 hlen2,
      if_pos ⟨by omega, by omega, by omega, by omega,
        by rw [width_of_dims hd2]; omega, by rw [height_of_dims hd2]; omega⟩]

/-- Witness for C9: on a 17×17 buffer the drone at the origin seen through
the identity view-projection lands at screen (8.5, 8.5), truncated to
(8, 8); the 8-pixel guard just fits and the centre pixel is drawn red. -/
theorem C9_drone_marker_witness :
    (renderDrone ⟨Vec3.zero, ⟨⟨0, 0, 0⟩, Vec3.zero, Vec3.zero, 1⟩⟩ 1
      ⟨17, 17, List.replicate 289 ⟨0, 0, 0, 255⟩⟩).getPixel 8 8 = some ⟨255, 0, 0, 255⟩ := by
  have hcast : f32toU32 (8.5 : ℝ) = 8 := by
    unfold f32toU32
    rw [if_neg (by norm_num)]
    have hfl : ⌊(8.5 : ℝ)⌋ = 8 := by
      rw [Int.floor_eq_iff]
      norm_num
    rw [hfl]
    decide
  have hproj : worldToScreen
      (PhysicsWorld.getDronePosition ⟨Vec3.zero, ⟨⟨0, 0, 0⟩, Vec3.zero, Vec3.zero, 1⟩⟩) 1
      (⟨17, 17, List.replicate 289 ⟨0, 0, 0, 255⟩⟩ : PixelBuffer).width
      (⟨17, 17, List.replicate 289 ⟨0, 0, 0, 255⟩⟩ : PixelBuffer).height
      = some (8.5, 8.5, 0) := by
    show worldToScreen ⟨0, 0, 0⟩ 1 17 17 = some (8.5, 8.5, 0)
    have hone : (1 : Mat4).mulVec (toHomogeneous ⟨0, 0, 0⟩) = toHomogeneous ⟨0, 0, 0⟩ :=
      Matrix.one_mulVec _
    unfold worldToScreen
    dsimp only
    rw [hone]
    have h3 : toHomogeneous ⟨0, 0, 0⟩ 3 = 1 := rfl
    have h0 : toHomogeneous ⟨0, 0, 0⟩ 0 = 0 := rfl
    have h1 : toHomogeneous ⟨0, 0, 0⟩ 1 = 0 := rfl
    have h2 : toHomogeneous ⟨0, 0, 0⟩ 2 = 0 := rfl
    rw [h3, h0, h1, h2, if_neg (by norm_num)]
    norm_num
  have hmain := (C9_drone_marker ⟨Vec3.zero, ⟨⟨0, 0, 0⟩, Vec3.zero, Vec3.zero, 1⟩⟩ 1
    ⟨17, 17, List.replicate 289 ⟨0, 0, 0, 255⟩⟩ 8.5 8.5 0
    (show (List.replicate 289 (⟨0, 0, 0, 255⟩ : Color)).length = 17 * 17 by
      rw [List.length_replicate]) hproj).2
    (by rw [hcast]; refine ⟨by norm_num, by norm_num, by norm_num, by norm_num⟩)
  rw [hcast] at hmain
  exact hmain

/-- Witness for C2 at a concrete 2×2 buffer. -/
theorem C2_set_get_contract_witness :
    ((⟨2, 2, List.replicate 4 ⟨0, 0, 0, 255⟩⟩ : PixelBuffer).pixels.length = 2 * 2) ∧
    ((⟨2, 2, List.replicate 4 ⟨0, 0, 0, 255⟩⟩ : PixelBuffer).setPixel 1 0 ⟨255, 0, 0, 255⟩).2
        = true ∧
    ((⟨2, 2, List.replicate 4 ⟨0, 0, 0, 255⟩⟩ : PixelBuffer).setPixel 1 0
        ⟨255, 0, 0, 255⟩).1.getPixel 1 0 = some ⟨255, 0, 0, 255⟩ := by
  refine ⟨rfl, ?_⟩
  exact (C2_set_get_contract ⟨2, 2, List.replicate 4 ⟨0, 0, 0, 255⟩⟩ 1 0
    ⟨255, 0, 0, 255⟩ rfl).1 (by decide) (by decide)

end Bhumi
